import Mathlib

/-
Verification development for the diagnostics transport (src/index.js).

The JavaScript source is shallowly embedded: JS values become the
inductive `JsValue`, records (plain objects) become association lists
from field names to `JsValue`, and code that can raise a runtime
TypeError is modelled with `Except String`.  Each definition below names
the source function it translates.
-/

namespace Diagnostics

/-- Model of a JavaScript value as it flows through the transport:
null, undefined, booleans, numbers (modelled as integers), strings,
arrays and plain objects (association lists in insertion order). -/
inductive JsValue where
  | vNull
  | vUndefined
  | vBool (b : Bool)
  | vNum (n : Int)
  | vStr (s : String)
  | vArr (elems : List JsValue)
  | vObj (fields : List (String × JsValue))

/-- JavaScript truthiness of a value (used by `if (item.message)`,
`innerValue["key"] && innerValue["value"]`, and similar tests). -/
def jsTruthy : JsValue → Bool
  | .vNull => false
  | .vUndefined => false
  | .vBool b => b
  | .vNum n => n != 0
  | .vStr s => s != ""
  | .vArr _ => true
  | .vObj _ => true

/-- Whether a value is a string (JS `typeof value === 'string'`). -/
def isStr : JsValue → Bool
  | .vStr _ => true
  | _ => false

mutual
/-- Model of the platform builtin `JSON.stringify` in a position where
it yields text for every modelled value: array elements (where JS
renders undefined as null) and nested values.  Object fields whose
value is undefined are omitted, as `JSON.stringify` omits them.  The
escaping of characters embedded in strings is not modelled; the claims
only depend on which values serialize to text at all. -/
def jsonStringify : JsValue → String
  | .vNull => "null"
  | .vUndefined => "null"
  | .vBool b => cond b "true" "false"
  | .vNum n => toString n
  | .vStr s => "\x22" ++ s ++ "\x22"
  | .vArr xs => "[" ++ String.intercalate "," (jsonStringifyElems xs) ++ "]"
  | .vObj fs => "\x7b" ++ String.intercalate "," (jsonStringifyFields fs) ++ "\x7d"

/-- Serialized elements of a JSON array (an undefined element renders
as null, per `JSON.stringify`). -/
def jsonStringifyElems : List JsValue → List String
  | [] => []
  | x :: xs => jsonStringify x :: jsonStringifyElems xs

/-- Serialized fields of a JSON object: a field whose value is
undefined is omitted, as `JSON.stringify` omits it. -/
def jsonStringifyFields : List (String × JsValue) → List String
  | [] => []
  | (_, .vUndefined) :: fs => jsonStringifyFields fs
  | (k, v) :: fs => ("\x22" ++ k ++ "\x22:" ++ jsonStringify v) :: jsonStringifyFields fs
end

/-- Model of a top-level `JSON.stringify(value)` call as the source
uses it at src/index.js:373: the result is JSON text for every
modelled value except `undefined`, for which `JSON.stringify` returns
`undefined` itself rather than a string. -/
def jsJSONStringify : JsValue → JsValue
  | .vUndefined => .vUndefined
  | v => .vStr (jsonStringify v)

/-- A raw winston `info` record: field names mapped to values, in
insertion order, with at most one entry per field name. -/
abbrev RawRecord := List (String × JsValue)

/-- Model of JS `delete item[key]`: the entry for `k` is removed. -/
def eraseKey (r : RawRecord) (k : String) : RawRecord :=
  r.filter (fun p => p.1 != k)

/-- Whether field `k` is present in the record with a defined value
(JS test `item[key] !== undefined`). -/
def present (r : RawRecord) (k : String) : Bool :=
  match r.lookup k with
  | some .vUndefined => false
  | some _ => true
  | none => false

/-- Translation of `getValueOrDefault(item, key, defaultValue)`
(src/index.js:319-326): if the field is defined it is deleted from the
record and returned, otherwise the default is returned and the record
is left unchanged.  Returns the value together with the residual
record. -/
def getValueOrDefault (r : RawRecord) (k : String) (d : JsValue) : JsValue × RawRecord :=
  match r.lookup k with
  | some .vUndefined => (d, r)
  | some v => (v, eraseKey r k)
  | none => (d, r)

/-- Translation of `getFieldValue(item, array)` (src/index.js:327-337):
scan the alias list in order; the first alias whose value is defined is
deleted from the record and its value returned; if none is defined the
result is JS null (`none` here) and the record is unchanged. -/
def getFieldValue : RawRecord → List String → Option JsValue × RawRecord
  | r, [] => (none, r)
  | r, k :: rest =>
    match r.lookup k with
    | some .vUndefined => getFieldValue r rest
    | some v => (some v, eraseKey r k)
    | none => getFieldValue r rest

/-- Translation of the `switch (item.level)` statement
(src/index.js:173-192) on a string level. -/
def mapLevel (level : String) : String :=
  if level = "silly" then "InfoDetail"
  else if level = "debug" then "Debug"
  else if level = "verbose" then "Verbose"
  else if level = "info" then "InfoBasic"
  else if level = "warn" then "Warning"
  else if level = "error" then "Error"
  else level

/-- The same switch acting on an arbitrary value of `item.level`: the
`case` labels compare with `===`, so a non-string value falls through
every case and is left unchanged. -/
def levelSwitch : JsValue → JsValue
  | .vStr s => .vStr (mapLevel s)
  | v => v

/-- Model of JS `s.indexOf(c)` for a single character: the index of
the first occurrence, or `-1` when the character does not occur. -/
def jsIndexOfChar (s : String) (c : Char) : Int :=
  match s.data.findIdx? (fun x => x == c) with
  | some i => (i : Int)
  | none => -1

/-- Model of JS `s.substring(a, b)`: both arguments are clamped to
`[0, s.length]` (negative values to 0 via `Int.toNat`) and swapped
when out of order. -/
def jsSubstring (s : String) (a b : Int) : String :=
  let a2 := min a.toNat s.data.length
  let b2 := min b.toNat s.data.length
  String.mk ((s.data.take (max a2 b2)).drop (min a2 b2))

/-- Model of JS `s.substring(a)` (one-argument form). -/
def jsSubstringFrom (s : String) (a : Int) : String :=
  jsSubstring s a (s.data.length : Int)

/-- Model of the JS builtin `s.trim()`: whitespace is removed from
both ends of the string. -/
def jsTrim (s : String) : String :=
  String.mk (((s.data.dropWhile Char.isWhitespace).reverse.dropWhile Char.isWhitespace).reverse)

/-- Translation of the post-step of the format detector
(src/index.js:224-230): when the message ended up blank, synthesize it
from the trace data, truncated to 100 characters with an ellipsis when
longer. -/
def synthMessage (td : String) : String :=
  if td.length > 100 then "[OBJECT] -> " ++ String.mk (td.data.take 100) ++ "..."
  else "[OBJECT] -> " ++ td

/-- Rule A guard of the format detector (src/index.js:204): the first
character of the trimmed message is an opening brace or bracket. -/
def ruleAFires (t : String) : Bool :=
  match t.data with
  | [] => false
  | c :: _ => c == '{' || c == '['

/-- Scan for the first match of the regex `<[^>]+>` starting at
character index `n` (src/index.js:209-217): a `<` followed by at least
one non-`>` character and then a `>`.  Returns the match's start index
and the characters after the match, mirroring a global `exec` loop. -/
def findTagAux : List Char → Nat → Option (Nat × List Char)
  | [], _ => none
  | c :: rest, i =>
    if c == '<' then
      match rest.findIdx? (fun x => x == '>') with
      | some d => if 1 ≤ d then some (i, rest.drop (d + 1)) else findTagAux rest (i + 1)
      | none => none
    else findTagAux rest (i + 1)

/-- The `while (matches = regex.exec(msg))` loop of the format detector
breaks as soon as two matches are seen: the result is the first match's
start index when at least two matches of `<[^>]+>` exist. -/
def twoTags (cs : List Char) : Option Nat :=
  match findTagAux cs 0 with
  | some (i, rest) =>
    match findTagAux rest 0 with
    | some _ => some i
    | none => none
  | none => none

/-- Rule B of the format detector (src/index.js:218-222): with at
least two tag matches, the message is cut one character before the
first match and the trace data starts at the first match. -/
def ruleB (t : String) : Option (String × String) :=
  match twoTags t.data with
  | some i => some (String.mk (t.data.take (i - 1)), String.mk (t.data.drop i))
  | none => none

/-- Translation of the format detector body (src/index.js:199-232) for
a string message: returns the final message together with the trace
data override (`none` when `item.traceData` is left untouched). -/
def formatDetector (message : String) : String × Option String :=
  let t := jsTrim message
  if t.length = 0 then (message, none)
  else if ruleAFires t then (synthMessage t, some t)
  else
    match ruleB t with
    | some (m, td) => (if (jsTrim m).length = 0 then synthMessage td else m, some td)
    | none => (message, none)

/-- Translation of the guarded format-detector entry
(src/index.js:200-232) on an arbitrary resolved `item.message`: a falsy
message skips the block; a truthy string runs the detector; a truthy
non-string raises `TypeError` at `item.message.trim()`, which no
enclosing handler catches. -/
def formatStep (message : JsValue) (traceData : JsValue) : Except String (JsValue × JsValue) :=
  if jsTruthy message then
    match message with
    | .vStr s =>
      let r := formatDetector s
      .ok (.vStr r.1, match r.2 with
                      | some td => .vStr td
                      | none => traceData)
    | _ => .error "TypeError: item.message.trim is not a function"
  else .ok (message, traceData)

/-- Translation of the raw stack-text split (src/index.js:272-279):
the `try` block splits the stack at its first newline; a non-string
stack value raises inside the `try` and is swallowed by the `catch`,
leaving the default message and the original value. -/
def stackParse (stackVal : JsValue) : String × JsValue :=
  match stackVal with
  | .vStr s =>
    let fLineIdx := jsIndexOfChar s '\n'
    (jsSubstring s 0 fLineIdx, .vStr (jsSubstringFrom s (fLineIdx + 1)))
  | v => ("Error: An exception has been thrown.", v)

/-- An exception-like JS `Error` value: `message` is always a string
on real errors, `code` and `stack` may be absent. -/
structure JsErr where
  message : String
  code : Option String
  stack : Option String

/-- The structured exception record built by the transport. -/
structure ExceptionInfo where
  exceptionType : Option String
  message : Option String
  source : Option String
  stackTrace : Option String
  data : List JsValue

/-- Translation of the exception extraction in `log`
(src/index.js:234-257, without the runtime enrichment pushes): the base
record uses `err.message || null`, `err.code || null`,
`err.stack || null`; when the stack text is truthy, the first newline
and first colon indexes are taken and `exceptionType`/`stackTrace` are
derived from them. -/
def extractException (err : JsErr) : ExceptionInfo :=
  let init : ExceptionInfo :=
    { exceptionType := none
      message := if err.message = "" then none else some err.message
      source := match err.code with
                | some c => if c = "" then none else some c
                | none => none
      stackTrace := match err.stack with
                    | some s => if s = "" then none else some s
                    | none => none
      data := [] }
  match err.stack with
  | some st =>
    if st = "" then init
    else
      let fLineIdx := jsIndexOfChar st '\n'
      let typeIdx := jsIndexOfChar st ':'
      { init with
        exceptionType := if typeIdx < fLineIdx then some (jsSubstring st 0 typeIdx) else none
        stackTrace := some (jsSubstringFrom st (fLineIdx + 1)) }
  | none => init

/-- Model of a JS property read `v[k]`: reading a property of `null`
or `undefined` raises a TypeError; on an object the stored value (or
`undefined`) is returned; on other values these lookups yield
`undefined`. -/
def jsGetProp (v : JsValue) (k : String) : Except String JsValue :=
  match v with
  | .vNull => .error "TypeError: Cannot read properties of null"
  | .vUndefined => .error "TypeError: Cannot read properties of undefined"
  | .vObj fs =>
    .ok (match fs.lookup k with
         | some x => x
         | none => .vUndefined)
  | _ => .ok .vUndefined

/-- The guard `innerValue[\x22key\x22] && innerValue[\x22value\x22]`
(src/index.js:364): short-circuit conjunction of the truthiness of the
two properties, propagating a TypeError from the reads. -/
def hasTruthyKV (v : JsValue) : Except String Bool :=
  match jsGetProp v "key" with
  | .error e => .error e
  | .ok kv =>
    if jsTruthy kv then
      match jsGetProp v "value" with
      | .error e => .error e
      | .ok vv => .ok (jsTruthy vv)
    else .ok false

/-- The inner splice loop of `getObjectAsKeyValueArray`
(src/index.js:361-371): every element of an array value that has
truthy `key` and `value` properties is pushed verbatim; the flag
records whether any element was pushed. -/
def spliceLoop : List JsValue → Except String (List JsValue × Bool)
  | [] => .ok ([], false)
  | iv :: rest =>
    match hasTruthyKV iv with
    | .error e => .error e
    | .ok b =>
      match spliceLoop rest with
      | .error e => .error e
      | .ok (tags, flag) =>
        if b then .ok (iv :: tags, true) else .ok (tags, flag)

/-- The value coercion of `getObjectAsKeyValueArray`
(src/index.js:372-374): a non-string value is passed through
`JSON.stringify` before the tag is pushed; for an undefined field
value this leaves undefined, not a string. -/
def stringifyTagValue (v : JsValue) : JsValue :=
  match v with
  | .vStr s => .vStr s
  | v => jsJSONStringify v

/-- A pushed tag object `{ key: key, value: value }`
(src/index.js:375). -/
def mkTag (k : String) (v : JsValue) : JsValue :=
  .vObj [("key", .vStr k), ("value", stringifyTagValue v)]

/-- Whether a tag object has exactly a string `key` and a string
`value` field, the shape the KeyValueTag schema requires. -/
def tagIsStringKV : JsValue → Bool
  | .vObj [(k1, v1), (k2, v2)] => k1 == "key" && isStr v1 && k2 == "value" && isStr v2
  | _ => false

/-- The loop body of `getObjectAsKeyValueArray` for one field
(src/index.js:357-376): an array value whose splice loop pushed
something contributes those elements verbatim; every other value is
emitted as one tag with its value coerced to a string. -/
def fieldTags (k : String) (v : JsValue) : Except String (List JsValue) :=
  match v with
  | .vArr inner =>
    match spliceLoop inner with
    | .error e => .error e
    | .ok (tags, flag) => if flag then .ok tags else .ok [mkTag k (.vArr inner)]
  | _ => .ok [mkTag k v]

/-- Translation of `getObjectAsKeyValueArray(item)`
(src/index.js:350-379) for the shapes its call sites pass (plain
objects, given as field lists; the `Array.isArray(item)` early return
and falsy-input guard are unreachable there): the fields are processed
in order and their tags concatenated. -/
def getObjectAsKeyValueArray : List (String × JsValue) → Except String (List JsValue)
  | [] => .ok []
  | (k, v) :: rest =>
    match fieldTags k v with
    | .error e => .error e
    | .ok ts =>
      match getObjectAsKeyValueArray rest with
      | .error e => .error e
      | .ok more => .ok (ts ++ more)

/-- Translation of the runtime-context pushes onto
`item.exception.data` in `log` (src/index.js:258-267): `process.cwd()`,
`process.execPath` and `process.version` are strings, `process.argv` is
serialized, and the three memory figures are pushed as raw numbers. -/
def logExceptionEnrichment (cwd execPath version : String) (argv : List JsValue)
    (memoryUsage : Option (Int × Int × Int)) : List JsValue :=
  [ .vObj [("key", .vStr "cwd"), ("value", .vStr cwd)],
    .vObj [("key", .vStr "execPath"), ("value", .vStr execPath)],
    .vObj [("key", .vStr "version"), ("value", .vStr version)],
    .vObj [("key", .vStr "argv"), ("value", .vStr (jsonStringify (.vArr argv)))] ] ++
  (match memoryUsage with
   | some (rss, heapTotal, heapUsed) =>
     [ .vObj [("key", .vStr "mem.rss"), ("value", .vNum rss)],
       .vObj [("key", .vStr "mem.heapTotal"), ("value", .vNum heapTotal)],
       .vObj [("key", .vStr "mem.heapUsed"), ("value", .vNum heapUsed)] ]
   | none => [])

/-- The `bufferSize` option default (src/index.js:23):
`options.bufferSize || 5000`, so an absent or zero option becomes
5000. -/
def resolveBufferSize (o : Option Nat) : Nat :=
  match o with
  | some n => if n = 0 then 5000 else n
  | none => 5000

/-- Translation of `appendToBuffer(item)` (src/index.js:389-393): when
the buffer already holds at least `bufferSize` items, `pop()` removes
the last (most recently added) element; the new item is then pushed at
the tail. -/
def appendToBuffer (bufferSize : Nat) (buf : List α) (item : α) : List α :=
  if bufferSize ≤ buf.length then buf.dropLast ++ [item] else buf ++ [item]

/-- Translation of `flushBuffers(self)` (src/index.js:58-71): a
non-empty buffer is spliced out in full and becomes the payload of one
send; an empty buffer does nothing.  The result is the buffer after the
call together with the batch handed to serialization/compression/send
(`none` when no send is started). -/
def flushBuffers (buf : List α) : List α × Option (List α) :=
  if 0 < buf.length then ([], some buf) else (buf, none)

/-- The `===` comparison `item.level === 'Error'` (src/index.js:312). -/
def levelIsError : JsValue → Bool
  | .vStr s => s == "Error"
  | _ => false

/-- The buffer effect of the tail of `log` (src/index.js:311-314):
append the item, then flush exactly when the post-mapping level is the
string `Error`. -/
def logBufferStep (bufferSize : Nat) (level : JsValue) (item : α) (buf : List α) :
    List α × Option (List α) :=
  let buf2 := appendToBuffer bufferSize buf item
  if levelIsError level then flushBuffers buf2 else (buf2, none)

/-- The buffer effect of the tail of `logException`
(src/index.js:123-124): append the item, then flush unconditionally. -/
def logExceptionBufferStep (bufferSize : Nat) (item : α) (buf : List α) :
    List α × Option (List α) :=
  flushBuffers (appendToBuffer bufferSize buf item)

/-- The defaulted buffer size is always positive. -/
theorem resolveBufferSize_pos (o : Option Nat) : 1 ≤ resolveBufferSize o := by
  cases o with
  | none => simp [resolveBufferSize]
  | some n =>
    simp only [resolveBufferSize]
    split
    · omega
    · omega

/-- Appending always leaves a non-empty buffer. -/
theorem appendToBuffer_ne_nil (bufferSize : Nat) (buf : List α) (item : α) :
    appendToBuffer bufferSize buf item ≠ [] := by
  unfold appendToBuffer
  split <;> simp

/-- One append from a state within capacity: the new length is the old
length plus one, capped at the (positive) capacity. -/
theorem appendToBuffer_length (bs : Nat) (h1 : 1 ≤ bs) (buf : List α) (h : buf.length ≤ bs)
    (x : α) : (appendToBuffer bs buf x).length = min (buf.length + 1) bs := by
  unfold appendToBuffer
  split
  · rename_i hge
    have hlen : buf.length = bs := le_antisymm h hge
    have hne : buf ≠ [] := by
      intro hnil
      subst hnil
      simp at hlen
      omega
    rw [List.length_append, List.length_dropLast]
    simp [hlen]
    omega
  · rename_i hlt
    rw [List.length_append]
    simp
    omega

/-- Folding appends from a state within a positive capacity yields
length `min (start + number of items) capacity`. -/
theorem foldl_appendToBuffer_length (bs : Nat) (h1 : 1 ≤ bs) :
    ∀ (items : List α) (buf : List α), buf.length ≤ bs →
      (items.foldl (appendToBuffer bs) buf).length = min (buf.length + items.length) bs := by
  intro items
  induction items with
  | nil =>
    intro buf h
    simp
    omega
  | cons x xs ih =>
    intro buf h
    have hstep := appendToBuffer_length bs h1 buf h x
    have hle : (appendToBuffer bs buf x).length ≤ bs := by omega
    have := ih (appendToBuffer bs buf x) hle
    simp only [List.foldl_cons]
    rw [this, hstep]
    simp
    omega

/-- C1.  For every sequence of appends to the buffered queue starting
empty, the queue length never exceeds the (defaulted) `bufferSize`;
appending to a queue that already holds `bufferSize` items evicts
exactly the most-recently-added element (the current tail) and inserts
the new item at the tail; and appending `bufferSize + 1` items leaves
exactly `bufferSize` items resident. -/
theorem c1_buffer_bound (α : Type) (o : Option Nat) :
    (∀ items : List α,
        (items.foldl (appendToBuffer (resolveBufferSize o)) []).length ≤ resolveBufferSize o)
    ∧ (∀ (l : List α) (x y : α), (l ++ [x]).length = resolveBufferSize o →
        appendToBuffer (resolveBufferSize o) (l ++ [x]) y = l ++ [y])
    ∧ (∀ items : List α, items.length = resolveBufferSize o + 1 →
        (items.foldl (appendToBuffer (resolveBufferSize o)) []).length = resolveBufferSize o) := by
  have h1 := resolveBufferSize_pos o
  refine ⟨?_, ?_, ?_⟩
  · intro items
    have := foldl_appendToBuffer_length (resolveBufferSize o) h1 items [] (by simp)
    rw [this]
    omega
  · intro l x y hlen
    unfold appendToBuffer
    rw [if_pos (le_of_eq hlen.symm)]
    rw [List.dropLast_concat]
  · intro items hlen
    have := foldl_appendToBuffer_length (resolveBufferSize o) h1 items [] (by simp)
    rw [this, hlen]
    simp

/-- Witness for C1 at `bufferSize := 2`: three appends leave the two
items `[1, 3]`, of length `2 = bufferSize`. -/
theorem c1_buffer_bound_witness :
    ([1, 2, 3] : List Nat).length = resolveBufferSize (some 2) + 1
    ∧ (([1, 2, 3] : List Nat).foldl (appendToBuffer (resolveBufferSize (some 2))) []).length
        = resolveBufferSize (some 2) :=
  ⟨by decide, (c1_buffer_bound Nat (some 2)).2.2 [1, 2, 3] (by decide)⟩

/-- Deleting one field leaves every other field's lookup unchanged. -/
theorem lookup_eraseKey (r : RawRecord) (k k2 : String) (h : k2 ≠ k) :
    (eraseKey r k).lookup k2 = r.lookup k2 := by
  induction r with
  | nil => rfl
  | cons p rest ih =>
    obtain ⟨a, b⟩ := p
    by_cases hak : a = k
    · subst hak
      have h2 : (k2 == a) = false := by simp [h]
      simp [eraseKey, List.filter_cons, List.lookup, h2] at *
      exact ih
    · have h3 : (a != k) = true := by simp [hak]
      simp only [eraseKey, List.filter_cons, h3, if_true, cond_true, List.lookup]
      by_cases hk2 : k2 = a
      · simp [hk2]
      · have h4 : (k2 == a) = false := by simp [hk2]
        simp only [h4, cond_false]
        exact ih

/-- C2.  `getFieldValue` scans the alias list in order: the first
alias present in the record is deleted and its value returned, and
every other field of the residual record is still looked up exactly as
before; when no alias is present the result is null and the record is
returned unchanged. -/
theorem c2_getFieldValue_firstOf :
    (∀ (r : RawRecord) (pre post : List String) (k : String) (v : JsValue),
        (∀ k2 ∈ pre, present r k2 = false) →
        r.lookup k = some v → v ≠ .vUndefined →
        getFieldValue r (pre ++ k :: post) = (some v, eraseKey r k)
        ∧ ∀ k3, k3 ≠ k → (eraseKey r k).lookup k3 = r.lookup k3)
    ∧ (∀ (r : RawRecord) (aliases : List String),
        (∀ k2 ∈ aliases, present r k2 = false) →
        getFieldValue r aliases = (none, r)) := by
  constructor
  · intro r pre post k v hpre hk hv
    refine ⟨?_, fun k3 h3 => lookup_eraseKey r k k3 h3⟩
    induction pre with
    | nil =>
      cases v with
      | vUndefined => exact absurd rfl hv
      | vNull => simp only [List.nil_append, getFieldValue, hk]
      | vBool b => simp only [List.nil_append, getFieldValue, hk]
      | vNum n => simp only [List.nil_append, getFieldValue, hk]
      | vStr s => simp only [List.nil_append, getFieldValue, hk]
      | vArr xs => simp only [List.nil_append, getFieldValue, hk]
      | vObj fs => simp only [List.nil_append, getFieldValue, hk]
    | cons k2 pre2 ih =>
      have hp2 : present r k2 = false := hpre k2 (List.mem_cons_self k2 pre2)
      have hrest : ∀ k4 ∈ pre2, present r k4 = false :=
        fun k4 hmem => hpre k4 (List.mem_cons_of_mem k2 hmem)
      simp only [List.cons_append, getFieldValue]
      cases h2 : r.lookup k2 with
      | none => exact ih hrest
      | some w =>
        cases w with
        | vUndefined => exact ih hrest
        | vNull => simp [present, h2] at hp2
        | vBool b => simp [present, h2] at hp2
        | vNum n => simp [present, h2] at hp2
        | vStr s => simp [present, h2] at hp2
        | vArr xs => simp [present, h2] at hp2
        | vObj fs => simp [present, h2] at hp2
  · intro r aliases
    induction aliases with
    | nil => intro _; rfl
    | cons k2 rest ih =>
      intro hall
      have hp2 : present r k2 = false := hall k2 (List.mem_cons_self k2 rest)
      have hrest : ∀ k4 ∈ rest, present r k4 = false :=
        fun k4 hmem => hall k4 (List.mem_cons_of_mem k2 hmem)
      simp only [getFieldValue]
      cases h2 : r.lookup k2 with
      | none => exact ih hrest
      | some w =>
        cases w with
        | vUndefined => exact ih hrest
        | vNull => simp [present, h2] at hp2
        | vBool b => simp [present, h2] at hp2
        | vNum n => simp [present, h2] at hp2
        | vStr s => simp [present, h2] at hp2
        | vArr xs => simp [present, h2] at hp2
        | vObj fs => simp [present, h2] at hp2

/-- Witness for C2: with aliases `["message", "msg"]`, a record
holding only `msg` and `extra` gives up `msg`, and `extra` survives. -/
theorem c2_getFieldValue_firstOf_witness :
    getFieldValue [("msg", JsValue.vStr "hi"), ("extra", JsValue.vNum 1)] ["message", "msg"]
      = (some (JsValue.vStr "hi"), [("extra", JsValue.vNum 1)]) :=
  (c2_getFieldValue_firstOf.1 [("msg", JsValue.vStr "hi"), ("extra", JsValue.vNum 1)]
    ["message"] [] "msg" (JsValue.vStr "hi")
    (by decide) rfl (fun h => JsValue.noConfusion h)).1

/-- C3.  The severity switch maps exactly silly to InfoDetail, debug
to Debug, verbose to Verbose, info to InfoBasic, warn to Warning and
error to Error; every other level string passes through verbatim; and
a record without a `level` field resolves to the default `Info`, which
the switch leaves unchanged. -/
theorem c3_level_mapping :
    mapLevel "silly" = "InfoDetail"
    ∧ mapLevel "debug" = "Debug"
    ∧ mapLevel "verbose" = "Verbose"
    ∧ mapLevel "info" = "InfoBasic"
    ∧ mapLevel "warn" = "Warning"
    ∧ mapLevel "error" = "Error"
    ∧ (∀ s : String, s ≠ "silly" → s ≠ "debug" → s ≠ "verbose" → s ≠ "info" →
        s ≠ "warn" → s ≠ "error" → mapLevel s = s)
    ∧ (∀ r : RawRecord, r.lookup "level" = none →
        levelSwitch (getValueOrDefault r "level" (.vStr "Info")).1 = .vStr "Info") := by
  refine ⟨rfl, rfl, rfl, rfl, rfl, rfl, ?_, ?_⟩
  · intro s h1 h2 h3 h4 h5 h6
    simp [mapLevel, h1, h2, h3, h4, h5, h6]
  · intro r hr
    simp [getValueOrDefault, hr, levelSwitch, mapLevel]

/-- Witness for C3: the default level of the empty record stays
`Info`, and the unrecognized token `Trace` passes through. -/
theorem c3_level_mapping_witness :
    levelSwitch (getValueOrDefault [] "level" (.vStr "Info")).1 = JsValue.vStr "Info"
    ∧ mapLevel "Trace" = "Trace" :=
  ⟨c3_level_mapping.2.2.2.2.2.2.2 [] rfl,
   c3_level_mapping.2.2.2.2.2.2.1 "Trace" (by decide) (by decide) (by decide) (by decide)
     (by decide) (by decide)⟩

/-- C4.  When the trimmed message is non-empty and its first character
is an opening brace or bracket, the detector moves the whole trimmed
message into the trace data, and the synthesized message is
`[OBJECT] -> ` followed by the trace data, truncated to its first 100
characters with a trailing ellipsis exactly when it is longer than
100 characters. -/
theorem c4_object_rule (message : String) (c : Char)
    (hc : (jsTrim message).data.head? = some c) (hbrace : c = '{' ∨ c = '[') :
    (formatDetector message).2 = some (jsTrim message)
    ∧ (formatDetector message).1 =
        if (jsTrim message).length > 100
        then "[OBJECT] -> " ++ String.mk ((jsTrim message).data.take 100) ++ "..."
        else "[OBJECT] -> " ++ jsTrim message := by
  obtain ⟨rest, hdata⟩ : ∃ rest, (jsTrim message).data = c :: rest := by
    cases hd : (jsTrim message).data with
    | nil => rw [hd] at hc; exact absurd hc (by simp)
    | cons a l =>
      rw [hd] at hc
      simp only [List.head?_cons, Option.some.injEq] at hc
      exact ⟨l, by rw [hc]⟩
  have hlen : (jsTrim message).length ≠ 0 := by
    have h : (jsTrim message).length = (jsTrim message).data.length := rfl
    rw [h, hdata]
    simp
  have hfire : ruleAFires (jsTrim message) = true := by
    unfold ruleAFires
    rw [hdata]
    rcases hbrace with h | h <;> subst h <;> simp
  have heval : formatDetector message = (synthMessage (jsTrim message), some (jsTrim message)) := by
    unfold formatDetector
    rw [if_neg hlen, if_pos hfire]
  rw [heval]
  exact ⟨rfl, rfl⟩

/-- Witness for C4 on the spec's example message, a small JSON
object. -/
theorem c4_object_rule_witness :
    (formatDetector "\x7b\x22a\x22:1\x7d").2 = some (jsTrim "\x7b\x22a\x22:1\x7d")
    ∧ (formatDetector "\x7b\x22a\x22:1\x7d").1 =
        if (jsTrim "\x7b\x22a\x22:1\x7d").length > 100
        then "[OBJECT] -> " ++ String.mk ((jsTrim "\x7b\x22a\x22:1\x7d").data.take 100) ++ "..."
        else "[OBJECT] -> " ++ jsTrim "\x7b\x22a\x22:1\x7d" :=
  c4_object_rule "\x7b\x22a\x22:1\x7d" '{' (by decide) (Or.inl rfl)

/-- A successful tag scan starts at or after the scan origin, and the
characters from the reported index onward begin with `<`. -/
theorem findTagAux_start (cs : List Char) :
    ∀ (n i : Nat) (rest : List Char), findTagAux cs n = some (i, rest) →
      n ≤ i ∧ (cs.drop (i - n)).head? = some '<' := by
  induction cs with
  | nil => intro n i rest h; exact absurd h (by simp [findTagAux])
  | cons c cs2 ih =>
    intro n i rest h
    have hrec : findTagAux cs2 (n + 1) = some (i, rest) →
        n ≤ i ∧ ((c :: cs2).drop (i - n)).head? = some '<' := by
      intro h2
      obtain ⟨hle, hhead⟩ := ih (n + 1) i rest h2
      refine ⟨by omega, ?_⟩
      have hsub : i - n = (i - (n + 1)) + 1 := by omega
      rw [hsub, List.drop_succ_cons]
      exact hhead
    unfold findTagAux at h
    by_cases hc : (c == '<') = true
    · rw [if_pos hc] at h
      split at h
      · rename_i d heq
        split at h
        · have hni : n = i := (Prod.mk.injEq _ _ _ _ ▸ Option.some.inj h).1
          subst hni
          refine ⟨le_refl n, ?_⟩
          simp only [Nat.sub_self, List.drop_zero, List.head?_cons]
          exact congrArg some (by simpa using hc)
        · exact hrec h
      · exact absurd h (by simp)
    · rw [if_neg hc] at h
      exact hrec h

/-- Evaluation of the detector once the empty and object-like guards
are known to fail: only rule B remains. -/
theorem formatDetector_ruleB_eq (message : String) (h0 : (jsTrim message).length ≠ 0)
    (hA : ruleAFires (jsTrim message) = false) :
    formatDetector message =
      match ruleB (jsTrim message) with
      | some (m, td) => (if (jsTrim m).length = 0 then synthMessage td else m, some td)
      | none => (message, none) := by
  unfold formatDetector
  rw [if_neg h0, if_neg (by simp [hA])]

/-- C5.  When the trimmed message is non-empty, does not start with a
brace or bracket, and holds at least two matches of the angle-bracket
tag pattern, rule B cuts the message one character before the first
match's start and the trace data is the text from the first match's
start (which begins with `<`) onward; with fewer than two matches the
message and trace data are left as resolved upstream. -/
theorem c5_markup_rule (message : String) (hpos : 0 < (jsTrim message).length)
    (hnofire : ruleAFires (jsTrim message) = false) :
    (∀ i, twoTags (jsTrim message).data = some i →
      ruleB (jsTrim message)
          = some (String.mk ((jsTrim message).data.take (i - 1)),
                  String.mk ((jsTrim message).data.drop i))
      ∧ (formatDetector message).2 = some (String.mk ((jsTrim message).data.drop i))
      ∧ ((jsTrim message).data.drop i).head? = some '<')
    ∧ (twoTags (jsTrim message).data = none → formatDetector message = (message, none)) := by
  have h0 : (jsTrim message).length ≠ 0 := by omega
  constructor
  · intro i hi
    have hrB : ruleB (jsTrim message)
        = some (String.mk ((jsTrim message).data.take (i - 1)),
                String.mk ((jsTrim message).data.drop i)) := by
      unfold ruleB
      rw [hi]
    refine ⟨hrB, ?_, ?_⟩
    · rw [formatDetector_ruleB_eq message h0 hnofire, hrB]
    · unfold twoTags at hi
      split at hi
      · rename_i p j rest h1
        split at hi
        · have hji : j = i := Option.some.inj hi
          subst hji
          have := (findTagAux_start (jsTrim message).data 0 j rest h1).2
          simpa using this
        · exact absurd hi (by simp)
      · exact absurd hi (by simp)
  · intro hnone
    have hrB : ruleB (jsTrim message) = none := by
      unfold ruleB
      rw [hnone]
    rw [formatDetector_ruleB_eq message h0 hnofire, hrB]

/-- Witness for C5 on the spec's example markup message: the first tag
starts at index 6, the message truncates to the text before the first
tag, and the trace data begins at the first tag. -/
theorem c5_markup_rule_witness :
    ruleB (jsTrim "intro <t1>x</t1> <t2>y</t2>")
        = some ("intro", "<t1>x</t1> <t2>y</t2>")
    ∧ (formatDetector "intro <t1>x</t1> <t2>y</t2>").2 = some "<t1>x</t1> <t2>y</t2>" := by
  have h := (c5_markup_rule "intro <t1>x</t1> <t2>y</t2>" (by decide) (by decide)).1
    6 (by decide)
  exact ⟨h.1, h.2.1⟩

/-- A found index is inside the list. -/
theorem findIdx?_lt_length {l : List α} {p : α → Bool} {i : Nat}
    (h : l.findIdx? p = some i) : i < l.length := by
  obtain ⟨hlt, -⟩ := List.findIdx?_eq_some_iff_getElem.mp h
  exact hlt

/-- The JS two-argument substring from 0 to an index inside the string
is the prefix of that many characters. -/
theorem jsSubstring_zero_take (s : String) (j : Nat) (hj : j ≤ s.data.length) :
    jsSubstring s 0 (j : Int) = String.mk (s.data.take j) := by
  unfold jsSubstring
  have h1 : min (Int.toNat 0) s.data.length = 0 := by omega
  have h2 : min (Int.toNat (j : Int)) s.data.length = j := by omega
  simp only [h1, h2]
  have h3 : max 0 j = j := by omega
  have h4 : min 0 j = 0 := by omega
  rw [h3, h4]
  simp

/-- The JS one-argument substring from an index inside the string is
the suffix from that index. -/
theorem jsSubstringFrom_drop (s : String) (a : Nat) (ha : a ≤ s.data.length) :
    jsSubstringFrom s (a : Int) = String.mk (s.data.drop a) := by
  unfold jsSubstringFrom jsSubstring
  have h1 : min (Int.toNat (a : Int)) s.data.length = a := by omega
  have h2 : min (Int.toNat (s.data.length : Int)) s.data.length = s.data.length := by omega
  simp only [h1, h2]
  have h3 : max a s.data.length = s.data.length := by omega
  have h4 : min a s.data.length = a := by omega
  rw [h3, h4]
  rw [List.take_length]

/-- C6.  For an Error resolved from the exception field with a
non-empty stack text: the structured message is the error's message or
null, the source is the error's code or null; the first newline index
and first colon index are found (as by `indexOf`, `-1` when absent),
the exception type is the text before the colon index exactly when the
colon index precedes the newline index (null otherwise), and the stack
trace is the text after the newline index; when both characters occur,
these are the literal prefix before the colon and suffix after the
newline. -/
theorem c6_exception_extraction (err : JsErr) (st : String)
    (hst : err.stack = some st) (hne : st ≠ "") :
    ((extractException err).exceptionType =
        if jsIndexOfChar st ':' < jsIndexOfChar st '\n'
        then some (jsSubstring st 0 (jsIndexOfChar st ':')) else none)
    ∧ ((extractException err).stackTrace = some (jsSubstringFrom st (jsIndexOfChar st '\n' + 1)))
    ∧ (err.message ≠ "" → (extractException err).message = some err.message)
    ∧ (err.message = "" → (extractException err).message = none)
    ∧ (∀ c, err.code = some c → c ≠ "" → (extractException err).source = some c)
    ∧ ((err.code = none ∨ err.code = some "") → (extractException err).source = none)
    ∧ (∀ i j, st.data.findIdx? (fun x => x == '\n') = some i →
        st.data.findIdx? (fun x => x == ':') = some j →
        (j < i → (extractException err).exceptionType = some (String.mk (st.data.take j)))
        ∧ (i ≤ j → (extractException err).exceptionType = none)
        ∧ (extractException err).stackTrace = some (String.mk (st.data.drop (i + 1)))) := by
  obtain ⟨msg, code, stackF⟩ := err
  simp only at hst
  subst hst
  have heType : (extractException ⟨msg, code, some st⟩).exceptionType =
      if jsIndexOfChar st ':' < jsIndexOfChar st '\n'
      then some (jsSubstring st 0 (jsIndexOfChar st ':')) else none := by
    simp only [extractException]
    rw [if_neg hne]
  have heTrace : (extractException ⟨msg, code, some st⟩).stackTrace =
      some (jsSubstringFrom st (jsIndexOfChar st '\n' + 1)) := by
    simp only [extractException]
    rw [if_neg hne]
  refine ⟨heType, heTrace, ?_, ?_, ?_, ?_, ?_⟩
  · intro hm
    simp only [extractException]
    rw [if_neg hne]
    simp only at hm
    simp [hm]
  · intro hm
    simp only [extractException]
    rw [if_neg hne]
    simp only at hm
    simp [hm]
  · intro c hc hcne
    simp only [extractException]
    rw [if_neg hne]
    simp only at hc
    subst hc
    simp [hcne]
  · intro hc
    simp only [extractException]
    rw [if_neg hne]
    simp only at hc
    rcases hc with h | h <;> subst h <;> simp
  · intro i j hi hj
    have hiVal : jsIndexOfChar st '\n' = (i : Int) := by
      unfold jsIndexOfChar
      rw [hi]
    have hjVal : jsIndexOfChar st ':' = (j : Int) := by
      unfold jsIndexOfChar
      rw [hj]
    have hilt : i < st.data.length := findIdx?_lt_length hi
    have hjlt : j < st.data.length := findIdx?_lt_length hj
    refine ⟨?_, ?_, ?_⟩
    · intro hji
      rw [heType, hiVal, hjVal, if_pos (show ((j : Int) < (i : Int)) by omega)]
      rw [jsSubstring_zero_take st j (le_of_lt hjlt)]
    · intro hij
      rw [heType, hiVal, hjVal, if_neg (show ¬((j : Int) < (i : Int)) by omega)]
    · rw [heTrace, hiVal]
      have hcast : ((i : Int) + 1) = ((i + 1 : Nat) : Int) := by push_cast; ring
      rw [hcast, jsSubstringFrom_drop st (i + 1) (by omega)]

/-- Witness for C6 on a realistic stack header: the colon at index 9
precedes the newline at index 15, so the exception type is the text
before the colon and the stack trace is the text after the newline. -/
theorem c6_exception_extraction_witness :
    (extractException ⟨"boom", some "E42", some "TypeError: boom\n    at f (x.js:1:2)"⟩).exceptionType
        = some "TypeError"
    ∧ (extractException ⟨"boom", some "E42", some "TypeError: boom\n    at f (x.js:1:2)"⟩).stackTrace
        = some "    at f (x.js:1:2)" := by
  have h := (c6_exception_extraction ⟨"boom", some "E42", some "TypeError: boom\n    at f (x.js:1:2)"⟩
    "TypeError: boom\n    at f (x.js:1:2)" rfl (by decide)).2.2.2.2.2.2
    15 9 (by decide) (by decide)
  exact ⟨h.1 (by decide), h.2.2⟩

/-- C7.  A flush detaches the whole queue contents as one batch and
leaves the queue empty; flushing an empty queue dispatches nothing (no
serialization, compression or send is started). -/
theorem c7_flush_detaches (α : Type) (buf : List α) :
    (flushBuffers buf).1 = []
    ∧ (buf ≠ [] → (flushBuffers buf).2 = some buf)
    ∧ (buf = [] → (flushBuffers buf).2 = none) := by
  cases buf with
  | nil => exact ⟨rfl, fun h => absurd rfl h, fun _ => rfl⟩
  | cons x rest =>
    refine ⟨?_, fun _ => ?_, fun h => absurd h (by simp)⟩
    · simp [flushBuffers]
    · simp [flushBuffers]

/-- Witness for C7: flushing the one-item queue `[1]` empties it and
dispatches exactly that batch. -/
theorem c7_flush_detaches_witness :
    ([1] : List Nat) ≠ []
    ∧ (flushBuffers [1]).1 = []
    ∧ (flushBuffers [1]).2 = some [1] := by
  have h := c7_flush_detaches Nat [1]
  exact ⟨by decide, h.1, h.2.1 (by decide)⟩

/-- C8.  An append performed by `log` for an item whose post-mapping
level is the string `Error` is immediately followed by a flush of the
appended buffer (the queue is left empty and the batch dispatched holds
the appended contents), and `logException` flushes unconditionally
right after its append in the same way. -/
theorem c8_error_triggers_flush (α : Type) (bs : Nat) (buf : List α) (item : α) :
    logBufferStep bs (.vStr "Error") item buf = ([], some (appendToBuffer bs buf item))
    ∧ logExceptionBufferStep bs item buf = ([], some (appendToBuffer bs buf item)) := by
  have hne : appendToBuffer bs buf item ≠ [] := appendToBuffer_ne_nil bs buf item
  have hflush : flushBuffers (appendToBuffer bs buf item)
      = ([], some (appendToBuffer bs buf item)) := by
    unfold flushBuffers
    rw [if_pos (by cases h : appendToBuffer bs buf item with
                   | nil => exact absurd h hne
                   | cons a l => simp)]
  constructor
  · unfold logBufferStep
    rw [if_pos (show levelIsError (.vStr "Error") = true from rfl)]
    exact hflush
  · unfold logExceptionBufferStep
    exact hflush

/-- C9 (failing input).  The claim says `log` completes for every raw
record, including one whose resolved message is a non-string; but a
truthy non-string message (here the number 42) reaches
`item.message.trim()` with no enclosing handler and the TypeError
propagates to the caller, while (as the claim correctly says for the
stack field) a non-string `stack` value is swallowed by the local
try/catch and degrades to the default message. -/
theorem c9_nonstring_message_throws :
    formatStep (.vNum 42) .vNull = .error "TypeError: item.message.trim is not a function"
    ∧ stackParse (.vNum 5) = ("Error: An exception has been thrown.", .vNum 5) :=
  ⟨rfl, rfl⟩

/-- The coerced tag value is a string for every defined field value;
an undefined field value stays undefined through the coercion. -/
theorem stringifyTagValue_isStr (v : JsValue) (h : v ≠ .vUndefined) :
    isStr (stringifyTagValue v) = true := by
  cases v with
  | vUndefined => exact absurd rfl h
  | vNull => rfl
  | vBool b => rfl
  | vNum n => rfl
  | vStr s => rfl
  | vArr xs => rfl
  | vObj fs => rfl

/-- A tag built by the push branch has a string key and a string value
whenever the field value is defined. -/
theorem tagIsStringKV_mkTag (k : String) (v : JsValue) (h : v ≠ .vUndefined) :
    tagIsStringKV (mkTag k v) = true := by
  cases v with
  | vUndefined => exact absurd rfl h
  | vNull => rfl
  | vBool b => rfl
  | vNum n => rfl
  | vStr s => rfl
  | vArr xs => rfl
  | vObj fs => rfl

/-- Everything the splice loop pushes is an element of the scanned
array with truthy `key` and `value` properties. -/
theorem spliceLoop_mem (inner : List JsValue) :
    ∀ (tags : List JsValue) (flag : Bool) (t : JsValue),
      spliceLoop inner = .ok (tags, flag) → t ∈ tags →
      t ∈ inner ∧ hasTruthyKV t = .ok true := by
  induction inner with
  | nil =>
    intro tags flag t h ht
    simp only [spliceLoop, Except.ok.injEq, Prod.mk.injEq] at h
    rw [← h.1] at ht
    exact absurd ht (by simp)
  | cons iv rest ih =>
    intro tags flag t h ht
    unfold spliceLoop at h
    split at h
    · exact absurd h (by simp)
    · rename_i b hb
      split at h
      · exact absurd h (by simp)
      · rename_i tags2 flag2 hp
        split at h
        · rename_i hbtrue
          have heq : iv :: tags2 = tags ∧ true = flag := by
            have := Except.ok.inj h
            exact ⟨(Prod.mk.injEq _ _ _ _ ▸ this).1, (Prod.mk.injEq _ _ _ _ ▸ this).2⟩
          rw [← heq.1] at ht
          rcases List.mem_cons.mp ht with h1 | h1
          · subst h1
            refine ⟨List.mem_cons_self t rest, ?_⟩
            rw [hb, hbtrue]
          · obtain ⟨hmem, htr⟩ := ih tags2 flag2 t hp h1
            exact ⟨List.mem_cons_of_mem iv hmem, htr⟩
        · have heq : tags2 = tags := by
            have := Except.ok.inj h
            exact (Prod.mk.injEq _ _ _ _ ▸ this).1
          rw [← heq] at ht
          obtain ⟨hmem, htr⟩ := ih tags2 flag2 t hp ht
          exact ⟨List.mem_cons_of_mem iv hmem, htr⟩

/-- Every tag contributed by one field either has a string key and a
string value, or was spliced verbatim from an array element with
truthy `key` and `value` properties, or records a field explicitly
set to undefined, whose tag value is undefined because top-level
`JSON.stringify(undefined)` is undefined. -/
theorem fieldTags_mem (k : String) (v : JsValue) (ts : List JsValue) (t : JsValue)
    (h : fieldTags k v = .ok ts) (ht : t ∈ ts) :
    tagIsStringKV t = true
    ∨ (∃ inner, v = JsValue.vArr inner ∧ t ∈ inner ∧ hasTruthyKV t = .ok true)
    ∨ (v = JsValue.vUndefined
        ∧ t = JsValue.vObj [("key", .vStr k), ("value", .vUndefined)]) := by
  cases v with
  | vArr inner =>
    cases hsp : spliceLoop inner with
    | error e =>
      have he : fieldTags k (.vArr inner) = .error e := by
        simp only [fieldTags]
        rw [hsp]
      rw [he] at h
      exact absurd h (by simp)
    | ok pr =>
      obtain ⟨tags1, flag⟩ := pr
      have he : fieldTags k (.vArr inner)
          = if flag then .ok tags1 else .ok [mkTag k (.vArr inner)] := by
        simp only [fieldTags]
        rw [hsp]
      rw [he] at h
      cases flag with
      | true =>
        rw [if_pos rfl] at h
        have hts : tags1 = ts := Except.ok.inj h
        rw [← hts] at ht
        obtain ⟨hmem, htr⟩ := spliceLoop_mem inner tags1 true t hsp ht
        exact Or.inr (Or.inl ⟨inner, rfl, hmem, htr⟩)
      | false =>
        rw [if_neg (by simp)] at h
        have hts : [mkTag k (.vArr inner)] = ts := Except.ok.inj h
        rw [← hts] at ht
        have h1 : t = mkTag k (.vArr inner) := by simpa using ht
        subst h1
        exact Or.inl (tagIsStringKV_mkTag k (.vArr inner) (fun hh => JsValue.noConfusion hh))
  | vUndefined =>
    have hts : [mkTag k .vUndefined] = ts := Except.ok.inj h
    rw [← hts] at ht
    have h1 : t = mkTag k .vUndefined := by simpa using ht
    subst h1
    exact Or.inr (Or.inr ⟨rfl, rfl⟩)
  | vNull =>
    have hts : [mkTag k .vNull] = ts := Except.ok.inj h
    rw [← hts] at ht
    have h1 : t = mkTag k .vNull := by simpa using ht
    subst h1
    exact Or.inl (tagIsStringKV_mkTag k .vNull (fun hh => JsValue.noConfusion hh))
  | vBool b =>
    have hts : [mkTag k (.vBool b)] = ts := Except.ok.inj h
    rw [← hts] at ht
    have h1 : t = mkTag k (.vBool b) := by simpa using ht
    subst h1
    exact Or.inl (tagIsStringKV_mkTag k (.vBool b) (fun hh => JsValue.noConfusion hh))
  | vNum n =>
    have hts : [mkTag k (.vNum n)] = ts := Except.ok.inj h
    rw [← hts] at ht
    have h1 : t = mkTag k (.vNum n) := by simpa using ht
    subst h1
    exact Or.inl (tagIsStringKV_mkTag k (.vNum n) (fun hh => JsValue.noConfusion hh))
  | vStr s =>
    have hts : [mkTag k (.vStr s)] = ts := Except.ok.inj h
    rw [← hts] at ht
    have h1 : t = mkTag k (.vStr s) := by simpa using ht
    subst h1
    exact Or.inl (tagIsStringKV_mkTag k (.vStr s) (fun hh => JsValue.noConfusion hh))
  | vObj fs2 =>
    have hts : [mkTag k (.vObj fs2)] = ts := Except.ok.inj h
    rw [← hts] at ht
    have h1 : t = mkTag k (.vObj fs2) := by simpa using ht
    subst h1
    exact Or.inl (tagIsStringKV_mkTag k (.vObj fs2) (fun hh => JsValue.noConfusion hh))

/-- Splice evidence carries over when the record grows at the head. -/
theorem splice_evidence_weaken (p : String × JsValue) (fs : List (String × JsValue))
    (t : JsValue)
    (h : ∃ k inner, (k, JsValue.vArr inner) ∈ fs ∧ t ∈ inner ∧ hasTruthyKV t = .ok true) :
    ∃ k inner, (k, JsValue.vArr inner) ∈ p :: fs ∧ t ∈ inner ∧ hasTruthyKV t = .ok true := by
  obtain ⟨k, inner, hm, h2, h3⟩ := h
  exact ⟨k, inner, List.mem_cons_of_mem p hm, h2, h3⟩

/-- C10 (amended).  Every tag emitted into metadata or trace tags by
`getObjectAsKeyValueArray` either has a string key and a string value
(non-string values having been serialized to JSON text), or was spliced
verbatim from an embedded array element with truthy `key` and `value`
properties, or stems from a field explicitly set to undefined, whose
tag value is undefined because top-level `JSON.stringify(undefined)`
returns undefined rather than text; and in the exception data built by
`log`, the cwd, execPath, version and argv tags are string-valued while
the three memory-figure tags carry raw numeric values. -/
theorem c10_tag_stringness_amended :
    (∀ (fs : List (String × JsValue)) (tags : List JsValue) (t : JsValue),
        getObjectAsKeyValueArray fs = .ok tags → t ∈ tags →
        tagIsStringKV t = true
        ∨ (∃ k inner, (k, JsValue.vArr inner) ∈ fs ∧ t ∈ inner ∧ hasTruthyKV t = .ok true)
        ∨ (∃ k, (k, JsValue.vUndefined) ∈ fs
            ∧ t = JsValue.vObj [("key", .vStr k), ("value", .vUndefined)]))
    ∧ (∀ (cwd execPath version : String) (argv : List JsValue)
        (memoryUsage : Option (Int × Int × Int)) (t : JsValue),
        t ∈ logExceptionEnrichment cwd execPath version argv memoryUsage →
        tagIsStringKV t = true
        ∨ ∃ memKey n, (memKey = "mem.rss" ∨ memKey = "mem.heapTotal" ∨ memKey = "mem.heapUsed")
            ∧ t = JsValue.vObj [("key", .vStr memKey), ("value", .vNum n)]) := by
  constructor
  · intro fs
    induction fs with
    | nil =>
      intro tags t h ht
      simp only [getObjectAsKeyValueArray, Except.ok.injEq] at h
      rw [← h] at ht
      exact absurd ht (by simp)
    | cons p rest ih =>
      obtain ⟨k, v⟩ := p
      intro tags t h ht
      unfold getObjectAsKeyValueArray at h
      split at h
      · exact absurd h (by simp)
      · rename_i ts hts
        split at h
        · exact absurd h (by simp)
        · rename_i more hmore
          have htags : ts ++ more = tags := Except.ok.inj h
          rw [← htags] at ht
          rcases List.mem_append.mp ht with h1 | h1
          · rcases fieldTags_mem k v ts t hts h1 with hc | hc | hc
            · exact Or.inl hc
            · obtain ⟨inner, hv, hmem, htr⟩ := hc
              subst hv
              exact Or.inr (Or.inl ⟨k, inner, List.mem_cons_self _ _, hmem, htr⟩)
            · obtain ⟨hv, hteq⟩ := hc
              subst hv
              exact Or.inr (Or.inr ⟨k, List.mem_cons_self _ _, hteq⟩)
          · rcases ih more t hmore h1 with hc | hc | hc
            · exact Or.inl hc
            · exact Or.inr (Or.inl (splice_evidence_weaken (k, v) rest t hc))
            · obtain ⟨k2, hm, hteq⟩ := hc
              exact Or.inr (Or.inr ⟨k2, List.mem_cons_of_mem (k, v) hm, hteq⟩)
  · intro cwd execPath version argv memoryUsage t ht
    cases memoryUsage with
    | none =>
      simp only [logExceptionEnrichment, List.append_nil, List.mem_cons,
        List.not_mem_nil, or_false] at ht
      rcases ht with h | h | h | h <;> subst h <;> exact Or.inl rfl
    | some m =>
      obtain ⟨rss, heapTotal, heapUsed⟩ := m
      simp only [logExceptionEnrichment, List.mem_append, List.mem_cons,
        List.not_mem_nil, or_false] at ht
      rcases ht with (h | h | h | h) | (h | h | h) <;> subst h
      · exact Or.inl rfl
      · exact Or.inl rfl
      · exact Or.inl rfl
      · exact Or.inl rfl
      · exact Or.inr ⟨"mem.rss", rss, Or.inl rfl, rfl⟩
      · exact Or.inr ⟨"mem.heapTotal", heapTotal, Or.inr (Or.inl rfl), rfl⟩
      · exact Or.inr ⟨"mem.heapUsed", heapUsed, Or.inr (Or.inr rfl), rfl⟩

/-- Counterexample for C10 as stated: a tags field holding the array
`[{key: "k", value: 5}]` is spliced verbatim, so the emitted tag
carries the raw number 5 — not a string and not serialized to JSON
text. -/
theorem c10_tag_stringness_counterexample :
    getObjectAsKeyValueArray
        [("tags", .vArr [.vObj [("key", .vStr "k"), ("value", .vNum 5)]])]
      = .ok [.vObj [("key", .vStr "k"), ("value", .vNum 5)]]
    ∧ tagIsStringKV (.vObj [("key", .vStr "k"), ("value", .vNum 5)]) = false :=
  ⟨rfl, rfl⟩

/-- Witness for C10 (amended): a numeric metadata field is serialized
to the JSON text `3` and emitted as a string-valued tag. -/
theorem c10_tag_stringness_amended_witness :
    getObjectAsKeyValueArray [("a", .vNum 3)]
      = .ok [.vObj [("key", .vStr "a"), ("value", .vStr "3")]]
    ∧ (tagIsStringKV (.vObj [("key", .vStr "a"), ("value", .vStr "3")]) = true
       ∨ (∃ k inner, (k, JsValue.vArr inner) ∈ ([("a", JsValue.vNum 3)] : List (String × JsValue))
           ∧ JsValue.vObj [("key", .vStr "a"), ("value", .vStr "3")] ∈ inner
           ∧ hasTruthyKV (.vObj [("key", .vStr "a"), ("value", .vStr "3")]) = .ok true)
       ∨ (∃ k, (k, JsValue.vUndefined) ∈ ([("a", JsValue.vNum 3)] : List (String × JsValue))
           ∧ JsValue.vObj [("key", .vStr "a"), ("value", .vStr "3")]
               = JsValue.vObj [("key", .vStr k), ("value", .vUndefined)])) :=
  ⟨rfl,
   c10_tag_stringness_amended.1 [("a", .vNum 3)]
     [.vObj [("key", .vStr "a"), ("value", .vStr "3")]]
     (.vObj [("key", .vStr "a"), ("value", .vStr "3")]) rfl (by simp)⟩

end Diagnostics
